import Mathlib

/-!
Shallow embedding of the per-shard message writer from
src/msg/producer/writer/message_writer.go, together with proofs about its
admission, queueing, acknowledgement, scan classification and retry-backoff
behaviour.

Conventions of the embedding:
* Go machine integers (int64 nanosecond timestamps, durations) are `Int`.
* Go float64 arithmetic in the exponential backoff is modelled over `ℚ`;
  the Go conversion `int64(float64)` (truncation toward zero) is `i64trunc`.
* The `message` struct itself lives in a file that is not among the provided
  sources; its fields and trivial accessors (`Set`, `Ack`, `IsAcked`,
  `IncWriteTimes`, `SetRetryAtNanos`, `IsDroppedOrConsumed`) are modelled from
  the spec's data-model section (init-nanos at Write, expected-process-at =
  init-nanos, retry-at initially 0, write-times a send counter, an acked flag,
  a dropped/consumed probe).
* Pointer sharing of one `*message` between the queue and the ack table is
  modelled by a heap keyed by the message id: the queue and the ack table hold
  ids, the heap holds the current message contents.
* Fallible Go code paths (a slice index that would panic) return `Option`.
-/

set_option linter.unusedVariables false

/-- Message envelope. Modelled from the spec: the `message` type is defined in
a source file not provided here; the spec's data-model section gives its
fields (shard/id metadata, init-nanos, expected-process-at-nanos, retry-at
nanos initially 0, write-times send counter, acked flag, dropped/consumed
probe of the producer-owned payload). -/
structure Message where
  shard : Nat
  id : Nat
  initNanos : Int
  expectedProcessAtNanos : Int
  retryAtNanos : Int
  writeTimes : Nat
  acked : Bool
  droppedOrConsumed : Bool
deriving DecidableEq, Repr

/-- Modelled from the spec: `m.IncWriteTimes()` bumps the send-attempt counter
(`write-times` is monotonic). Used by the scan loop's ready branch right
before the retry function is invoked. -/
def incWriteTimes (m : Message) : Message :=
  { m with writeTimes := m.writeTimes + 1 }

/-- State of one `messageWriter` (the fields guarded by its RW-mutex, plus the
construction-time `ignoreCutoffCutover` option and the done-channel status).
The queue and the ack table store message ids; `heap` maps an id to the
current contents of the shared `*message`. -/
structure WriterState where
  replicatedShardID : Nat
  msgID : Nat
  queue : List Nat
  heap : List (Nat × Message)
  acksMap : List Nat
  lastNewWrite : Option Nat
  cutOffNanos : Int
  cutOverNanos : Int
  messageTTLNanos : Int
  ignoreCutoffCutover : Bool
  isClosed : Bool
  doneChClosed : Bool
deriving DecidableEq, Repr

/-- Heap read: contents of the shared message with the given id (a dangling id
reads a zero message; real executions only read live ids). -/
def heapGet (h : List (Nat × Message)) (id : Nat) : Message :=
  match h.find? (fun p => p.1 == id) with
  | some p => p.2
  | none => ⟨0, 0, 0, 0, 0, 0, false, false⟩

/-- Heap write: update the shared message with the given id. -/
def heapSet (h : List (Nat × Message)) (id : Nat) (m : Message) : List (Nat × Message) :=
  (id, m) :: h.filter (fun p => !(p.1 == id))

/-- Key-set model of the Go map assignment `a.acks[id] = m` (`acks.add`): the
map's key set gains `id`; the message contents live in the heap. -/
def acksAddKey (l : List Nat) (id : Nat) : List Nat :=
  if id ∈ l then l else id :: l

/-- acks.remove: `delete(a.acks, meta.metadataKey.id)`. -/
def acksRemove (s : WriterState) (id : Nat) : WriterState :=
  { s with acksMap := s.acksMap.erase id }

/-- acks.ack: look up the id; absent means already acked / unknown, so return
`(false, 0)` and change nothing. Present: delete the entry, flip the shared
message's acked flag (`m.Ack()`), and return `(true, expectedProcessAtNanos)`. -/
def acksAck (s : WriterState) (id : Nat) : WriterState × Bool × Int :=
  if id ∈ s.acksMap then
    let m := heapGet s.heap id
    ({ s with
        acksMap := s.acksMap.erase id,
        heap := heapSet s.heap id { m with acked := true } },
      true, m.expectedProcessAtNanos)
  else (s, false, 0)

/-- acks.size: number of entries of the pending-ack table. -/
def acksSize (s : WriterState) : Nat := s.acksMap.length

/-- messageWriter.QueueSize: `return w.acks.size()`. -/
def queueSize (s : WriterState) : Nat := acksSize s

/-- messageWriter.isValidWriteWithLock: admission passes when cutoff/cutover
are ignored, and otherwise fails after the cutoff (`cutOffNanos > 0 && now >=
cutOffNanos`) or before the cutover (`cutOverNanos > 0 && now < cutOverNanos`).
Note the function does not read the `isClosed` flag. -/
def isValidWriteWithLock (s : WriterState) (nowNanos : Int) : Bool :=
  if s.ignoreCutoffCutover then true
  else if 0 < s.cutOffNanos ∧ s.cutOffNanos ≤ nowNanos then false
  else if 0 < s.cutOverNanos ∧ nowNanos < s.cutOverNanos then false
  else true

/-- Result of one `messageWriter.Write` call: the new state plus what happened
to the pooled envelope and the payload's reference count on that path. -/
structure WriteResult where
  state : WriterState
  admitted : Bool
  envelopeReturnedToPool : Bool
  payloadRefTaken : Bool
deriving DecidableEq, Repr

/-- Insert `nid` right after the element `c` of the list
(`list.InsertAfter(msg, mark)`; ids are unique in real queues, so matching the
first occurrence models pointer identity of the mark element). -/
def insertAfter : List Nat → Nat → Nat → List Nat
  | [], _, _ => []
  | x :: xs, c, nid => if x = c then x :: nid :: xs else x :: insertAfter xs c nid

/-- messageWriter.Write: admission check first — on failure the envelope goes
back to the pool unsent (`w.close(msg)`), no payload reference is taken and
the state is untouched. On success: `rm.IncRef()`, a fresh id `w.msgID+1`,
`msg.Set(meta, rm, nowNanos)` (init-nanos = expected-process-at = now,
retry-at 0, write-times 0), `acks.add`, then the queue insert: after the
`lastNewWrite` cursor when it is set, else `PushFront`; the cursor moves to
the new element (it becomes nil if the mark is no longer in the list, in
which case `InsertAfter` inserts nothing). -/
def writeMessage (s : WriterState) (nowNanos : Int) : WriteResult :=
  if isValidWriteWithLock s nowNanos = false then
    ⟨s, false, true, false⟩
  else
    let newID := s.msgID + 1
    let m : Message :=
      { shard := s.replicatedShardID, id := newID, initNanos := nowNanos,
        expectedProcessAtNanos := nowNanos, retryAtNanos := 0, writeTimes := 0,
        acked := false, droppedOrConsumed := false }
    let s1 := { s with
      msgID := newID,
      heap := heapSet s.heap newID m,
      acksMap := acksAddKey s.acksMap newID }
    let s2 :=
      match s1.lastNewWrite with
      | some c =>
          if c ∈ s1.queue then
            { s1 with queue := insertAfter s1.queue c newID, lastNewWrite := some newID }
          else { s1 with lastNewWrite := none }
      | none => { s1 with queue := newID :: s1.queue, lastNewWrite := some newID }
    ⟨s2, true, false, true⟩

/-- Classification outcome of one queue element inside scanBatchWithLock. -/
inductive ScanClass where
  | closedDrain
  | notReady
  | ttlExpired
  | ackedRemove
  | dropped
  | ready
deriving DecidableEq, Repr

/-- Per-element classification of scanBatchWithLock, in the source's branch
order: closed writer first; then not-ready (`m.RetryAtNanos() >= nowNanos`);
then TTL expiry (`messageTTLNanos > 0 && m.InitNanos()+messageTTLNanos <=
nowNanos`); then already-acked; then dropped-or-consumed; else ready. -/
def classifyWithLock (isClosed : Bool) (messageTTLNanos nowNanos : Int) (m : Message) : ScanClass :=
  if isClosed then .closedDrain
  else if nowNanos ≤ m.retryAtNanos then .notReady
  else if 0 < messageTTLNanos ∧ m.initNanos + messageTTLNanos ≤ nowNanos then .ttlExpired
  else if m.acked then .ackedRemove
  else if m.droppedOrConsumed then .dropped
  else .ready

/-- messageWriter.removeFromQueueWithLock: unlink the element from the queue
(the dequeue metric and the pool put carry no state we track). -/
def removeFromQueueWithLock (s : WriterState) (id : Nat) : WriterState :=
  { s with queue := s.queue.erase id }

/-- Result of one scanBatchWithLock call: the state after the batch, the next
element to resume from (empty list models the nil element), the ready batch
`msgsToWrite` in iteration order, and ghost counts of the table removals the
batch performed (successful `acks.ack` transitions, and entries removed by the
dropped-or-consumed handling). -/
structure ScanResult where
  state : WriterState
  next : List Nat
  msgsToWrite : List Nat
  ackTrueDelta : Nat
  dropRemovedDelta : Nat
deriving DecidableEq, Repr

/-- scanBatchWithLock, iterating the captured element list. `iterated` is the
count of elements already visited in this batch (the Go loop increments before
the bound check, so the batch breaks once `iterated+1 > batchSize`, returning
the current element as `next` — or nil when `next` was never assigned, which
happens only on the very first iteration). Branches follow `classifyWithLock`:
closed drains via `acks.ack` + queue removal; not-ready breaks the batch on a
partial scan and is kept; TTL expiry acks (possibly a no-op if a racing ack
won) and removes; already-acked is removed from the queue only; dropped
re-checks the acked flag then removes the table entry and the element; ready
bumps write-times (`incWriteTimes`), sets `retry-at = retryFn(writeTimes) +
now` and joins `msgsToWrite`. -/
def scanBatchAux (retryFn : Int → Int) (nowNanos : Int) (batchSize : Nat) (fullScan : Bool) :
    WriterState → List Nat → Nat → ScanResult
  | s, [], _ => ⟨s, [], [], 0, 0⟩
  | s, e :: rest, iterated =>
    if batchSize < iterated + 1 then
      ⟨s, if iterated = 0 then [] else e :: rest, [], 0, 0⟩
    else
      let m := heapGet s.heap e
      match classifyWithLock s.isClosed s.messageTTLNanos nowNanos m with
      | .closedDrain =>
        let a := acksAck s e
        let s2 := removeFromQueueWithLock a.1 e
        let r := scanBatchAux retryFn nowNanos batchSize fullScan s2 rest (iterated + 1)
        ⟨r.state, r.next, r.msgsToWrite,
          r.ackTrueDelta + (if a.2.1 then 1 else 0), r.dropRemovedDelta⟩
      | .notReady =>
        if fullScan = false then ⟨s, rest, [], 0, 0⟩
        else scanBatchAux retryFn nowNanos batchSize fullScan s rest (iterated + 1)
      | .ttlExpired =>
        let a := acksAck s e
        let s2 := removeFromQueueWithLock a.1 e
        let r := scanBatchAux retryFn nowNanos batchSize fullScan s2 rest (iterated + 1)
        ⟨r.state, r.next, r.msgsToWrite,
          r.ackTrueDelta + (if a.2.1 then 1 else 0), r.dropRemovedDelta⟩
      | .ackedRemove =>
        let s2 := removeFromQueueWithLock s e
        scanBatchAux retryFn nowNanos batchSize fullScan s2 rest (iterated + 1)
      | .dropped =>
        if m.acked then
          scanBatchAux retryFn nowNanos batchSize fullScan s rest (iterated + 1)
        else
          let present : Bool := e ∈ s.acksMap
          let s1 := acksRemove s e
          let s2 := removeFromQueueWithLock s1 e
          let r := scanBatchAux retryFn nowNanos batchSize fullScan s2 rest (iterated + 1)
          ⟨r.state, r.next, r.msgsToWrite,
            r.ackTrueDelta, r.dropRemovedDelta + (if present then 1 else 0)⟩
      | .ready =>
        let m1 := incWriteTimes m
        let writeTimes : Int := (m1.writeTimes : Int)
        let m2 := { m1 with retryAtNanos := retryFn writeTimes + nowNanos }
        let s1 := { s with heap := heapSet s.heap e m2 }
        let r := scanBatchAux retryFn nowNanos batchSize fullScan s1 rest (iterated + 1)
        ⟨r.state, r.next, e :: r.msgsToWrite, r.ackTrueDelta, r.dropRemovedDelta⟩

/-- Start of scanMessageQueue: the last-new-write cursor is cleared under the
lock before the walk begins. -/
def scanStartCursorClear (s : WriterState) : WriterState :=
  { s with lastNewWrite := none }

/-- Result of one `messageWriter.Close` call: the state afterwards, and
whether this call drained (ran waitUntilAllMessageRemoved), closed the done
channel, and joined the worker. -/
structure CloseResult where
  state : WriterState
  waitedDrain : Bool
  closedDoneCh : Bool
  joinedWorker : Bool
deriving DecidableEq, Repr

/-- messageWriter.Close: under the lock, a writer already closed returns at
once; otherwise the flag is set, then (outside the lock) the call waits until
the queue drains, closes the done channel and joins the scan worker. -/
def closeWriter (s : WriterState) : CloseResult :=
  if s.isClosed then ⟨s, false, false, false⟩
  else ⟨{ s with isClosed := true, doneChClosed := true }, true, true, true⟩

/-- Ghost counters for the accounting invariant: admitted Write calls,
successful `acks.ack` transitions (from the public Ack path and from the scan
loop's closed/TTL handling), and ack-table entries removed by the scan loop's
dropped-or-consumed handling. -/
structure Ghost where
  admitted : Nat
  ackTrue : Nat
  dropRemoved : Nat
deriving DecidableEq, Repr

/-- One sequential operation on the writer, at the granularity at which the
writer lock is held: a Write, a public Ack, the cursor clear at a scan start,
one scanBatchWithLock call (resuming `skip` positions into the queue), or a
Close. -/
inductive WriterOp where
  | write (nowNanos : Int)
  | ack (id : Nat)
  | scanStart
  | scanBatch (nowNanos : Int) (batchSize : Nat) (fullScan : Bool) (skip : Nat)
  | closeOp
deriving DecidableEq, Repr

/-- Step function of the sequential writer model, threading the ghost
counters. -/
def writerStep (retryFn : Int → Int) (p : WriterState × Ghost) (op : WriterOp) :
    WriterState × Ghost :=
  match op with
  | .write nowNanos =>
    let r := writeMessage p.1 nowNanos
    (r.state, if r.admitted then { p.2 with admitted := p.2.admitted + 1 } else p.2)
  | .ack id =>
    let a := acksAck p.1 id
    (a.1, if a.2.1 then { p.2 with ackTrue := p.2.ackTrue + 1 } else p.2)
  | .scanStart => (scanStartCursorClear p.1, p.2)
  | .scanBatch nowNanos batchSize fullScan skip =>
    let r := scanBatchAux retryFn nowNanos batchSize fullScan p.1 (p.1.queue.drop skip) 0
    (r.state,
      { p.2 with
          ackTrue := p.2.ackTrue + r.ackTrueDelta,
          dropRemoved := p.2.dropRemoved + r.dropRemovedDelta })
  | .closeOp => ((closeWriter p.1).state, p.2)

/-- newMessageWriter: fresh writer — id counter 0, empty queue and ack table,
cutoff/cutover 0, no TTL, open, cursor nil. -/
def initialWriter (shard : Nat) (ignoreCutoffCutover : Bool) : WriterState :=
  { replicatedShardID := shard, msgID := 0, queue := [], heap := [], acksMap := [],
    lastNewWrite := none, cutOffNanos := 0, cutOverNanos := 0, messageTTLNanos := 0,
    ignoreCutoffCutover := ignoreCutoffCutover, isClosed := false, doneChClosed := false }

/-- Run a sequence of writer operations from a fresh writer. -/
def runWriter (retryFn : Int → Int) (shard : Nat) (ignore : Bool) (ops : List WriterOp) :
    WriterState × Ghost :=
  ops.foldl (writerStep retryFn) (initialWriter shard ignore, ⟨0, 0, 0⟩)

/-- Repeated Write calls (used to state the FIFO-block property). -/
def writeAll (s : WriterState) : List Int → WriterState
  | [] => s
  | t :: ts => writeAll (writeMessage s t).state ts

/-- Count, along a sequence of `acks.ack` calls, how many calls on the target
id return true. -/
def ackRunCount (s : WriterState) (calls : List Nat) (target : Nat) : Nat :=
  match calls with
  | [] => 0
  | c :: rest =>
    let a := acksAck s c
    (if c = target ∧ a.2.1 = true then 1 else 0) + ackRunCount a.1 rest target

/-- Go conversion int64(float64): truncation toward zero, modelled on ℚ
(numerator divided by denominator, rounding toward zero). -/
def i64trunc (q : ℚ) : Int := q.num.tdiv (q.den : Int)

/-- Go 64-bit integer division truncates toward zero. -/
def goIntDiv (a b : Int) : Int := a.tdiv b

/-- math.MaxUint32. -/
def maxUint32 : Int := 4294967295

/-- NextRetryNanosFn: the exponential retry scheduler. `writeTimes == 0` keeps
the raw initial backoff; `writeTimes >= 1` computes
`initialBackoff * backoffFactor^(writeTimes-1)` in float arithmetic (modelled
over ℚ, truncated toward zero). When jitter is on, the backoff is at least
2ns and its half in microseconds fits a uint32, the value is replaced by
half-in-micros plus `Fastrandn(half-in-micros)` micros (the PRNG is the
`fastrandn` parameter). Finally the value is clamped to `maxBackoff`. -/
def nextRetryNanosFn (jitter : Bool) (backoffFactor : ℚ) (initialBackoff maxBackoff : Int)
    (fastrandn : Nat → Nat) (writeTimes : Int) : Int :=
  let backoff : Int :=
    if 1 ≤ writeTimes then
      i64trunc ((initialBackoff : ℚ) * backoffFactor ^ (writeTimes - 1).toNat)
    else initialBackoff
  let halfInMicros : Int := goIntDiv (goIntDiv backoff 2) 1000
  let backoff2 : Int :=
    if jitter = true ∧ 2 ≤ backoff ∧ halfInMicros < maxUint32 then
      let jitterInMicros : Int := (fastrandn halfInMicros.toNat : Int)
      let jitterInNanos : Int := jitterInMicros * 1000
      let halfInNanos : Int := halfInMicros * 1000
      halfInNanos + jitterInNanos
    else backoff
  if maxBackoff < backoff2 then maxBackoff else backoff2

/-- errInvalidBackoffDuration. -/
def errInvalidBackoffDuration : String := "invalid backoff duration"

/-- Function returned by StaticRetryNanosFn: `retry := writeTimes - 1`; when
`retry < len` the table is indexed at `retry` (a negative index panics in Go,
modelled as `none`), otherwise at `len - 1`. -/
def staticRetryFn (backoffInt64s : List Int) (writeTimes : Int) : Option Int :=
  let retry : Int := writeTimes - 1
  let l : Int := (backoffInt64s.length : Int)
  if retry < l then
    if 0 ≤ retry then backoffInt64s.get? retry.toNat else none
  else backoffInt64s.get? (backoffInt64s.length - 1)

/-- StaticRetryNanosFn: an empty backoff table is rejected with
errInvalidBackoffDuration, otherwise the static lookup function is returned. -/
def StaticRetryNanosFn (backoffDurations : List Int) : Except String (Int → Option Int) :=
  if backoffDurations.length = 0 then Except.error errInvalidBackoffDuration
  else Except.ok (staticRetryFn backoffDurations)

/-- Accounting invariant tying the ack table to the ghost counters: the table
keys are duplicate-free, every key was issued by the id counter, and the table
size plus all successful ack transitions plus all drop removals equals the
number of admitted writes. -/
def acctInv (s : WriterState) (g : Ghost) : Prop :=
  s.acksMap.Nodup ∧ (∀ id ∈ s.acksMap, id ≤ s.msgID)
    ∧ acksSize s + g.ackTrue + g.dropRemoved = g.admitted

/-- Concrete closed writer used as the C1 counterexample input. -/
def sClosedCex : WriterState := { initialWriter 3 false with isClosed := true }

/-- Concrete message whose retry-at equals the scan time, for C4. -/
def mEqCex : Message := ⟨0, 1, 0, 0, 5, 0, false, false⟩

theorem i64trunc_intCast (n : Int) : i64trunc ((n : ℚ)) = n := by
  simp [i64trunc, Rat.num_intCast, Rat.den_intCast]

theorem i64trunc_eq_floor {q : ℚ} (h : 0 ≤ q) : i64trunc q = ⌊q⌋ := by
  rw [Rat.floor_def]
  exact Int.tdiv_eq_ediv (Rat.num_nonneg.mpr h) (Int.natCast_nonneg _)

theorem i64trunc_mono {a b : ℚ} (ha : 0 ≤ a) (h : a ≤ b) : i64trunc a ≤ i64trunc b := by
  rw [i64trunc_eq_floor ha, i64trunc_eq_floor (ha.trans h)]
  exact Int.floor_le_floor h

theorem nextRetry_no_jitter_eq (backoffFactor : ℚ) (initialBackoff maxBackoff : Int)
    (fastrandn : Nat → Nat) (k : Int) (hk : 1 ≤ k) :
    nextRetryNanosFn false backoffFactor initialBackoff maxBackoff fastrandn k
      = min (i64trunc ((initialBackoff : ℚ) * backoffFactor ^ (k - 1).toNat)) maxBackoff := by
  simp only [nextRetryNanosFn, if_pos hk]
  simp only [false_and, if_neg (by simp : ¬((false = true) ∧ 2 ≤ i64trunc ((initialBackoff : ℚ) * backoffFactor ^ (k - 1).toNat) ∧ goIntDiv (goIntDiv (i64trunc ((initialBackoff : ℚ) * backoffFactor ^ (k - 1).toNat)) 2) 1000 < maxUint32))]
  omega

/-- Claim C6 counterexample: with jitter enabled (initial-backoff 2ms, factor
2, max-backoff 1h, PRNG sample 0) the call with write-times 0 returns
1000000ns — half the configured initial backoff — not the initial backoff
2000000ns, so the claim's "under every configuration" fails. -/
theorem exponential_jitter_zero_attempt_cex :
    nextRetryNanosFn true 2 2000000 3600000000000 (fun _ => 0) 0 = 1000000
    ∧ (1000000 : Int) ≠ 2000000 := by
  exact ⟨by decide, by decide⟩

/-- Claim C6 (amended): with jitter disabled, the calls with write-times 0 and
write-times 1 both return min(initial-backoff, max-backoff) — exactly the
initial backoff whenever it does not exceed the max backoff. (With jitter
enabled the result is halved and jittered, see the counterexample.) -/
theorem exponential_first_attempts_no_jitter (backoffFactor : ℚ)
    (initialBackoff maxBackoff : Int) (fastrandn : Nat → Nat) :
    nextRetryNanosFn false backoffFactor initialBackoff maxBackoff fastrandn 0
        = min initialBackoff maxBackoff
    ∧ nextRetryNanosFn false backoffFactor initialBackoff maxBackoff fastrandn 1
        = min initialBackoff maxBackoff := by
  constructor
  · simp only [nextRetryNanosFn]
    norm_num
    omega
  · rw [nextRetry_no_jitter_eq backoffFactor initialBackoff maxBackoff fastrandn 1 le_rfl]
    norm_num [i64trunc_intCast]

/-- Claim C7: with jitter disabled (and a well-formed exponential
configuration: nonnegative initial backoff, backoff factor at least 1) the
retry function is monotone non-decreasing for write-times n ≥ 1, never
exceeds max-backoff, and once it reaches max-backoff it stays there. -/
theorem exponential_backoff_monotone (backoffFactor : ℚ) (initialBackoff maxBackoff : Int)
    (fastrandn : Nat → Nat) (n : Int)
    (hinit : 0 ≤ initialBackoff) (hfac : 1 ≤ backoffFactor) (hn : 1 ≤ n) :
    nextRetryNanosFn false backoffFactor initialBackoff maxBackoff fastrandn n
      ≤ nextRetryNanosFn false backoffFactor initialBackoff maxBackoff fastrandn (n + 1)
    ∧ nextRetryNanosFn false backoffFactor initialBackoff maxBackoff fastrandn n ≤ maxBackoff
    ∧ (nextRetryNanosFn false backoffFactor initialBackoff maxBackoff fastrandn n = maxBackoff →
        nextRetryNanosFn false backoffFactor initialBackoff maxBackoff fastrandn (n + 1)
          = maxBackoff) := by
  have hq : (0 : ℚ) ≤ (initialBackoff : ℚ) * backoffFactor ^ (n - 1).toNat := by
    have h0 : (0 : ℚ) ≤ backoffFactor ^ (n - 1).toNat :=
      pow_nonneg (le_trans zero_le_one hfac) _
    exact mul_nonneg (by exact_mod_cast hinit) h0
  have hmono : (initialBackoff : ℚ) * backoffFactor ^ (n - 1).toNat
      ≤ (initialBackoff : ℚ) * backoffFactor ^ (n + 1 - 1).toNat := by
    have hexp : (n - 1).toNat ≤ (n + 1 - 1).toNat := by omega
    exact mul_le_mul_of_nonneg_left (pow_le_pow_right₀ hfac hexp) (by exact_mod_cast hinit)
  have htr : i64trunc ((initialBackoff : ℚ) * backoffFactor ^ (n - 1).toNat)
      ≤ i64trunc ((initialBackoff : ℚ) * backoffFactor ^ (n + 1 - 1).toNat) :=
    i64trunc_mono hq hmono
  rw [nextRetry_no_jitter_eq backoffFactor initialBackoff maxBackoff fastrandn n hn,
    nextRetry_no_jitter_eq backoffFactor initialBackoff maxBackoff fastrandn (n + 1) (by omega)]
  omega

/-- Witness for exponential_backoff_monotone at the concrete configuration
factor 2, initial 10ns, max 1000ns, n = 3. -/
theorem exponential_backoff_monotone_witness :
    (0 : Int) ≤ 10 ∧ (1 : ℚ) ≤ 2 ∧ (1 : Int) ≤ 3
    ∧ (nextRetryNanosFn false 2 10 1000 (fun _ => 0) 3
        ≤ nextRetryNanosFn false 2 10 1000 (fun _ => 0) (3 + 1)
      ∧ nextRetryNanosFn false 2 10 1000 (fun _ => 0) 3 ≤ 1000
      ∧ (nextRetryNanosFn false 2 10 1000 (fun _ => 0) 3 = 1000 →
          nextRetryNanosFn false 2 10 1000 (fun _ => 0) (3 + 1) = 1000)) :=
  ⟨by decide, by norm_num, by decide,
    exponential_backoff_monotone 2 10 1000 (fun _ => 0) 3 (by decide) (by norm_num) (by decide)⟩

theorem staticRetryFn_lookup (ds : List Int) (n : Int) (hds : ds ≠ []) (hn : 1 ≤ n) :
    staticRetryFn ds n = ds.get? (min (n - 1).toNat (ds.length - 1)) := by
  have hlen : 0 < ds.length := List.length_pos.mpr hds
  simp only [staticRetryFn]
  by_cases hc : n - 1 < (ds.length : Int)
  · rw [if_pos hc, if_pos (by omega)]
    congr 1
    omega
  · rw [if_neg hc]
    congr 1
    omega

theorem staticRetryFn_isSome (ds : List Int) (n : Int) (hds : ds ≠ []) (hn : 1 ≤ n) :
    (staticRetryFn ds n).isSome = true := by
  have hlen : 0 < ds.length := List.length_pos.mpr hds
  rw [staticRetryFn_lookup ds n hds hn]
  rw [List.get?_eq_getElem?]
  rw [List.getElem?_eq_getElem (by omega)]
  rfl

/-- Claim C8: StaticRetryNanosFn rejects exactly the empty duration table with
the invalid-backoff-duration error; on a non-empty table it returns the lookup
function, which for attempt n ≥ 1 returns the entry at index
min(n-1, len-1). -/
theorem static_retry_spec (ds : List Int) (n : Int) (hds : ds ≠ []) (hn : 1 ≤ n) :
    StaticRetryNanosFn [] = Except.error errInvalidBackoffDuration
    ∧ StaticRetryNanosFn ds = Except.ok (staticRetryFn ds)
    ∧ staticRetryFn ds n = ds.get? (min (n - 1).toNat (ds.length - 1))
    ∧ (staticRetryFn ds n).isSome = true := by
  refine ⟨rfl, ?_, staticRetryFn_lookup ds n hds hn, staticRetryFn_isSome ds n hds hn⟩
  have hlen : ds.length ≠ 0 := by
    simpa [List.length_eq_zero] using hds
  simp [StaticRetryNanosFn, hlen]

/-- Witness for static_retry_spec at table [10, 20, 30] and attempt 5. -/
theorem static_retry_spec_witness :
    StaticRetryNanosFn [] = Except.error errInvalidBackoffDuration
    ∧ StaticRetryNanosFn [10, 20, 30] = Except.ok (staticRetryFn [10, 20, 30])
    ∧ staticRetryFn [10, 20, 30] 5
        = [10, 20, 30].get? (min ((5 : Int) - 1).toNat ([10, 20, 30].length - 1))
    ∧ (staticRetryFn [10, 20, 30] 5).isSome = true :=
  static_retry_spec [10, 20, 30] 5 (by decide) (by decide)

/-- Claim C10: the static retry function indexes the table at write-times − 1,
which for write-times 0 is the out-of-bounds index −1 (modelled as `none`, the
Go panic); the scan loop's ready branch always calls the retry function with
the just-incremented write count `incWriteTimes`, which is at least 1 and
therefore in bounds. -/
theorem static_retry_write_times_precondition (ds : List Int) (m : Message) (hds : ds ≠ []) :
    staticRetryFn ds 0 = none
    ∧ 1 ≤ (((incWriteTimes m).writeTimes : Nat) : Int)
    ∧ (staticRetryFn ds (((incWriteTimes m).writeTimes : Nat) : Int)).isSome = true := by
  refine ⟨?_, by simp [incWriteTimes], ?_⟩
  · simp only [staticRetryFn]
    rw [if_pos (by omega : (0 : Int) - 1 < (ds.length : Int))]
    rw [if_neg (by omega : ¬(0 : Int) ≤ 0 - 1)]
  · exact staticRetryFn_isSome ds _ hds (by simp [incWriteTimes])

/-- Witness for static_retry_write_times_precondition at table [7] and a
fresh message (write-times 0, so the scan passes 1). -/
theorem static_retry_write_times_precondition_witness :
    staticRetryFn [7] 0 = none
    ∧ 1 ≤ (((incWriteTimes ⟨0, 1, 0, 0, 0, 0, false, false⟩).writeTimes : Nat) : Int)
    ∧ (staticRetryFn [7]
        (((incWriteTimes ⟨0, 1, 0, 0, 0, 0, false, false⟩).writeTimes : Nat) : Int)).isSome
          = true :=
  static_retry_write_times_precondition [7] ⟨0, 1, 0, 0, 0, 0, false, false⟩ (by decide)

theorem isValidWrite_ignores_closed (s : WriterState) (b : Bool) (nowNanos : Int) :
    isValidWriteWithLock { s with isClosed := b } nowNanos = isValidWriteWithLock s nowNanos := rfl

/-- Claim C1 counterexample: on a closed writer with no cutoff/cutover set,
a Write at now = 100 still passes admission — the message is enqueued, an
ack-table entry is added, a payload reference is taken and the envelope is
not returned to the pool — contradicting the claim that every Write after
Close fails admission. -/
theorem write_after_close_admitted_cex :
    sClosedCex.isClosed = true
    ∧ (writeMessage sClosedCex 100).admitted = true
    ∧ (writeMessage sClosedCex 100).state.queue = [1]
    ∧ (writeMessage sClosedCex 100).state.acksMap = [1]
    ∧ (writeMessage sClosedCex 100).payloadRefTaken = true
    ∧ (writeMessage sClosedCex 100).envelopeReturnedToPool = false := by
  decide

/-- Claim C1 (amended): Write admission never consults the closed flag — a
Write after Close is admitted or rejected exactly as before Close, by the
cutoff/cutover rules alone (isValidWriteWithLock); when admission does fail,
the envelope is returned to the pool unsent, no payload reference is taken,
no message is enqueued and no ack-table entry is added (the state is
untouched). Messages admitted after Close are drained by the scan loop's
closed branch. -/
theorem write_admission_ignores_closed (s : WriterState) (nowNanos : Int) :
    (writeMessage { s with isClosed := true } nowNanos).admitted
        = (writeMessage s nowNanos).admitted
    ∧ (writeMessage s nowNanos).admitted = isValidWriteWithLock s nowNanos
    ∧ ((writeMessage s nowNanos).admitted = false →
        (writeMessage s nowNanos).state = s
        ∧ (writeMessage s nowNanos).envelopeReturnedToPool = true
        ∧ (writeMessage s nowNanos).payloadRefTaken = false) := by
  by_cases h : isValidWriteWithLock s nowNanos
  · have h2 : isValidWriteWithLock { s with isClosed := true } nowNanos = true := h
    simp [writeMessage, h, h2]
  · have hf : isValidWriteWithLock s nowNanos = false := by simpa using h
    have h2 : isValidWriteWithLock { s with isClosed := true } nowNanos = false := hf
    simp [writeMessage, hf, h2]

/-- Witness for write_admission_ignores_closed on a writer whose cutoff (50)
has passed at now = 100, so admission fails. -/
theorem write_admission_ignores_closed_witness :
    (writeMessage { { initialWriter 0 false with cutOffNanos := 50 } with isClosed := true } 100).admitted
        = (writeMessage { initialWriter 0 false with cutOffNanos := 50 } 100).admitted
    ∧ (writeMessage { initialWriter 0 false with cutOffNanos := 50 } 100).admitted
        = isValidWriteWithLock { initialWriter 0 false with cutOffNanos := 50 } 100
    ∧ ((writeMessage { initialWriter 0 false with cutOffNanos := 50 } 100).admitted = false →
        (writeMessage { initialWriter 0 false with cutOffNanos := 50 } 100).state
            = { initialWriter 0 false with cutOffNanos := 50 }
        ∧ (writeMessage { initialWriter 0 false with cutOffNanos := 50 } 100).envelopeReturnedToPool = true
        ∧ (writeMessage { initialWriter 0 false with cutOffNanos := 50 } 100).payloadRefTaken = false) :=
  write_admission_ignores_closed { initialWriter 0 false with cutOffNanos := 50 } 100

/-- Claim C4 counterexample: a non-closed message whose retry-at-nanos equals
now (both 5) is classified not-ready by the scan — the source compares with
>= — even though the claim (retry-at > now) says it should proceed to the
TTL/acked/dropped/ready checks. -/
theorem not_ready_at_equal_now_cex :
    classifyWithLock false 0 5 mEqCex = ScanClass.notReady
    ∧ ¬(5 < mEqCex.retryAtNanos) := by
  decide

/-- Claim C4 (amended): during a scan at time now, a non-closed message is
classified not-ready exactly when its retry-at-nanos is greater than OR EQUAL
to now; only a message with retry-at-nanos strictly less than now proceeds to
the TTL/acked/dropped/ready checks. -/
theorem not_ready_iff_retry_ge_now (messageTTLNanos nowNanos : Int) (m : Message) :
    classifyWithLock false messageTTLNanos nowNanos m = ScanClass.notReady
      ↔ nowNanos ≤ m.retryAtNanos := by
  unfold classifyWithLock
  by_cases h : nowNanos ≤ m.retryAtNanos
  · simp [h]
  · simp only [h, Bool.false_eq_true, if_false, iff_false]
    split <;> try simp
    split <;> try simp
    split <;> simp

/-- Claim C9: Close is idempotent — a Close on an open writer sets the closed
flag, drains, closes the done channel and joins the worker; a Close on an
already-closed writer (in particular any second Close) returns immediately
without draining, without touching the done channel and without joining. -/
theorem close_idempotent (s : WriterState) :
    (s.isClosed = true → closeWriter s = ⟨s, false, false, false⟩)
    ∧ (s.isClosed = false →
        (closeWriter s).state = { s with isClosed := true, doneChClosed := true }
        ∧ (closeWriter s).waitedDrain = true
        ∧ (closeWriter s).closedDoneCh = true
        ∧ (closeWriter s).joinedWorker = true)
    ∧ closeWriter (closeWriter s).state = ⟨(closeWriter s).state, false, false, false⟩ := by
  by_cases h : s.isClosed <;> simp [closeWriter, h]

/-- Witness for close_idempotent on a fresh (open) writer. -/
theorem close_idempotent_witness :
    ((initialWriter 0 false).isClosed = false →
        (closeWriter (initialWriter 0 false)).state
            = { initialWriter 0 false with isClosed := true, doneChClosed := true }
        ∧ (closeWriter (initialWriter 0 false)).waitedDrain = true
        ∧ (closeWriter (initialWriter 0 false)).closedDoneCh = true
        ∧ (closeWriter (initialWriter 0 false)).joinedWorker = true)
    ∧ closeWriter (closeWriter (initialWriter 0 false)).state
        = ⟨(closeWriter (initialWriter 0 false)).state, false, false, false⟩ :=
  ⟨(close_idempotent (initialWriter 0 false)).2.1, (close_idempotent (initialWriter 0 false)).2.2⟩

theorem acksAck_not_mem (s : WriterState) (id : Nat) (h : id ∉ s.acksMap) :
    acksAck s id = (s, false, 0) := by
  simp [acksAck, h]

theorem acksAck_mem_map (s : WriterState) (id : Nat) :
    (acksAck s id).1.acksMap = if id ∈ s.acksMap then s.acksMap.erase id else s.acksMap := by
  by_cases h : id ∈ s.acksMap <;> simp [acksAck, h]

theorem acksAck_subset (s : WriterState) (c x : Nat) (h : x ∈ (acksAck s c).1.acksMap) :
    x ∈ s.acksMap := by
  rw [acksAck_mem_map] at h
  split at h
  exacts [List.mem_of_mem_erase h, h]

theorem heapGet_heapSet (h : List (Nat × Message)) (id : Nat) (m : Message) :
    heapGet (heapSet h id m) id = m := by
  simp [heapGet, heapSet]

theorem ackRunCount_zero (calls : List Nat) : ∀ (s : WriterState) (target : Nat),
    target ∉ s.acksMap → ackRunCount s calls target = 0 := by
  induction calls with
  | nil => intro s target h; rfl
  | cons c rest ih =>
    intro s target h
    simp only [ackRunCount]
    have h2 : target ∉ (acksAck s c).1.acksMap := fun hx => h (acksAck_subset s c target hx)
    rw [ih _ _ h2]
    by_cases hc : c = target
    · subst hc
      rw [acksAck_not_mem s c h]
      simp
    · simp [hc]

theorem ackRunCount_le_one (calls : List Nat) : ∀ (s : WriterState) (target : Nat),
    s.acksMap.Nodup → ackRunCount s calls target ≤ 1 := by
  induction calls with
  | nil => intro s target h; simp [ackRunCount]
  | cons c rest ih =>
    intro s target hnd
    simp only [ackRunCount]
    by_cases hct : c = target
    · subst hct
      by_cases hm : c ∈ s.acksMap
      · have hnotmem : c ∉ (acksAck s c).1.acksMap := by
          rw [acksAck_mem_map, if_pos hm]
          exact hnd.not_mem_erase
        rw [ackRunCount_zero rest _ _ hnotmem]
        split <;> simp
      · rw [acksAck_not_mem s c hm, ackRunCount_zero rest s c hm]
        simp
    · have hnd2 : (acksAck s c).1.acksMap.Nodup := by
        rw [acksAck_mem_map]
        split
        exacts [hnd.erase _, hnd]
      have hrest := ih _ target hnd2
      simpa [hct] using hrest

/-- Claim C3: acks.ack on an unknown (or already acked and hence removed) id
returns false and leaves the state untouched; a true return happens only for
a present entry, removes that entry and flips the message's acked flag; and
along any sequence of ack calls, the ack of a given id returns true at most
once. -/
theorem ack_idempotent_at_most_once (s : WriterState) (id : Nat) (calls : List Nat)
    (hnd : s.acksMap.Nodup) :
    (id ∉ s.acksMap → acksAck s id = (s, false, 0))
    ∧ ((acksAck s id).2.1 = true →
        id ∈ s.acksMap ∧ id ∉ (acksAck s id).1.acksMap
        ∧ (heapGet (acksAck s id).1.heap id).acked = true)
    ∧ ackRunCount s calls id ≤ 1 := by
  refine ⟨acksAck_not_mem s id, ?_, ackRunCount_le_one calls s id hnd⟩
  intro htrue
  by_cases hm : id ∈ s.acksMap
  · refine ⟨hm, ?_, ?_⟩
    · rw [acksAck_mem_map, if_pos hm]
      exact hnd.not_mem_erase
    · simp [acksAck, hm, heapGet_heapSet]
  · rw [acksAck_not_mem s id hm] at htrue
    simp at htrue

/-- Witness for ack_idempotent_at_most_once: a writer holding the single
pending entry 7, acked twice — the second ack finds nothing. -/
theorem ack_idempotent_at_most_once_witness :
    (7 ∉ ({ initialWriter 0 false with acksMap := [7] } : WriterState).acksMap →
        acksAck { initialWriter 0 false with acksMap := [7] } 7
          = ({ initialWriter 0 false with acksMap := [7] }, false, 0))
    ∧ ((acksAck { initialWriter 0 false with acksMap := [7] } 7).2.1 = true →
        7 ∈ ({ initialWriter 0 false with acksMap := [7] } : WriterState).acksMap
        ∧ 7 ∉ (acksAck { initialWriter 0 false with acksMap := [7] } 7).1.acksMap
        ∧ (heapGet (acksAck { initialWriter 0 false with acksMap := [7] } 7).1.heap 7).acked
            = true)
    ∧ ackRunCount { initialWriter 0 false with acksMap := [7] } [7, 7] 7 ≤ 1 :=
  ack_idempotent_at_most_once { initialWriter 0 false with acksMap := [7] } 7 [7, 7] (by decide)

/-- Claim C2 counterexample: write id 1, then a scan start clears the
last-new-write cursor, then write id 2 — the second Write is pushed at the
queue FRONT, so the queue reads [2, 1] from the front: the earlier admitted
Write (id 1) does NOT precede the later one (id 2), and the insert was not at
the tail. -/
theorem queue_not_fifo_across_scan_cex :
    (writeMessage (initialWriter 0 true) 1).admitted = true
    ∧ (writeMessage (scanStartCursorClear (writeMessage (initialWriter 0 true) 1).state) 2).admitted
        = true
    ∧ (writeMessage (scanStartCursorClear (writeMessage (initialWriter 0 true) 1).state) 2).state.queue
        = [2, 1]
    ∧ ¬((writeMessage (scanStartCursorClear (writeMessage (initialWriter 0 true) 1).state)
          2).state.queue.indexOf 1
        < (writeMessage (scanStartCursorClear (writeMessage (initialWriter 0 true) 1).state)
            2).state.queue.indexOf 2) := by
  decide

theorem insertAfter_block (pre : List Nat) (c : Nat) (suf : List Nat) (nid : Nat)
    (h : c ∉ pre) : insertAfter (pre ++ c :: suf) c nid = pre ++ c :: nid :: suf := by
  induction pre with
  | nil => simp [insertAfter]
  | cons x xs ih =>
    simp only [List.cons_append, insertAfter]
    rw [if_neg (fun he => h (by simp [he]))]
    rw [List.append_eq, ih (fun hx => h (List.mem_cons_of_mem x hx))]

theorem writeMessage_state_none (s : WriterState) (t : Int)
    (hv : isValidWriteWithLock s t = true) (hcur : s.lastNewWrite = none) :
    (writeMessage s t).state = { s with
      msgID := s.msgID + 1,
      heap := heapSet s.heap (s.msgID + 1)
        ⟨s.replicatedShardID, s.msgID + 1, t, t, 0, 0, false, false⟩,
      acksMap := acksAddKey s.acksMap (s.msgID + 1),
      queue := (s.msgID + 1) :: s.queue,
      lastNewWrite := some (s.msgID + 1) } := by
  simp [writeMessage, hv, hcur]

theorem writeMessage_state_some (s : WriterState) (t : Int) (c : Nat)
    (hv : isValidWriteWithLock s t = true) (hcur : s.lastNewWrite = some c) (hc : c ∈ s.queue) :
    (writeMessage s t).state = { s with
      msgID := s.msgID + 1,
      heap := heapSet s.heap (s.msgID + 1)
        ⟨s.replicatedShardID, s.msgID + 1, t, t, 0, 0, false, false⟩,
      acksMap := acksAddKey s.acksMap (s.msgID + 1),
      queue := insertAfter s.queue c (s.msgID + 1),
      lastNewWrite := some (s.msgID + 1) } := by
  simp [writeMessage, hv, hcur, hc]

theorem writeAll_block (times : List Int) :
    ∀ (s : WriterState) (pre : List Nat) (c : Nat) (suf : List Nat),
      s.ignoreCutoffCutover = true →
      s.queue = pre ++ c :: suf →
      s.lastNewWrite = some c →
      c ∉ pre →
      (∀ id ∈ s.queue, id ≤ s.msgID) →
      (writeAll s times).queue = pre ++ c :: List.range' (s.msgID + 1) times.length ++ suf := by
  induction times with
  | nil =>
    intro s pre c suf hig hq hcur hpre hbd
    simpa [writeAll] using hq
  | cons t ts ih =>
    intro s pre c suf hig hq hcur hpre hbd
    have hcmem : c ∈ s.queue := by rw [hq]; simp
    have hv : isValidWriteWithLock s t = true := by simp [isValidWriteWithLock, hig]
    have hstate := writeMessage_state_some s t c hv hcur hcmem
    have hq2 : (writeMessage s t).state.queue = (pre ++ [c]) ++ (s.msgID + 1) :: suf := by
      rw [hstate]
      simp only [hq, insertAfter_block pre c suf (s.msgID + 1) hpre]
      simp
    have hcur2 : (writeMessage s t).state.lastNewWrite = some (s.msgID + 1) := by
      rw [hstate]
    have hig2 : (writeMessage s t).state.ignoreCutoffCutover = true := by
      rw [hstate]; exact hig
    have hmsg2 : (writeMessage s t).state.msgID = s.msgID + 1 := by
      rw [hstate]
    have hpre2 : s.msgID + 1 ∉ pre ++ [c] := by
      intro hx
      have hxq : s.msgID + 1 ∈ s.queue := by
        rw [hq]
        rcases List.mem_append.mp hx with h1 | h1
        · exact List.mem_append.mpr (Or.inl h1)
        · simp at h1
          subst h1
          simp
      have := hbd _ hxq
      omega
    have hbd2 : ∀ id ∈ (writeMessage s t).state.queue, id ≤ (writeMessage s t).state.msgID := by
      intro id hid
      rw [hq2] at hid
      rw [hmsg2]
      rcases List.mem_append.mp hid with h1 | h1
      · have hxq : id ∈ s.queue := by
          rw [hq]
          rcases List.mem_append.mp h1 with h2 | h2
          · exact List.mem_append.mpr (Or.inl h2)
          · simp at h2
            subst h2
            simp
        have := hbd _ hxq
        omega
      · rcases List.mem_cons.mp h1 with h2 | h2
        · omega
        · have hxq : id ∈ s.queue := by
            rw [hq]
            exact List.mem_append.mpr (Or.inr (List.mem_cons_of_mem c h2))
          have := hbd _ hxq
          omega
    have hrec := ih (writeMessage s t).state (pre ++ [c]) (s.msgID + 1) suf
      hig2 hq2 hcur2 hpre2 hbd2
    rw [hmsg2] at hrec
    simp only [writeAll]
    rw [hrec]
    simp [List.range']

/-- Claim C2 (amended): an admitted Write inserts immediately after the
last-new-write cursor when it is set, and at the queue FRONT (not the tail)
when the cursor is clear, as it is at the start of every scan. Hence the
admitted Writes issued while the cursor chain is unbroken (here: from a
cursor-clear state, with cutoff/cutover ignored) appear in FIFO order as the
contiguous ascending id block range'(msgID+1) placed BEFORE all pre-existing
queue elements; a Write issued after a scan start therefore precedes all
earlier messages rather than following them. -/
theorem write_block_fifo (s : WriterState) (times : List Int)
    (hig : s.ignoreCutoffCutover = true)
    (hcur : s.lastNewWrite = none)
    (hbd : ∀ id ∈ s.queue, id ≤ s.msgID) :
    (writeAll s times).queue = List.range' (s.msgID + 1) times.length ++ s.queue := by
  cases times with
  | nil => simp [writeAll]
  | cons t ts =>
    have hv : isValidWriteWithLock s t = true := by simp [isValidWriteWithLock, hig]
    have hstate := writeMessage_state_none s t hv hcur
    have hq2 : (writeMessage s t).state.queue = [] ++ (s.msgID + 1) :: s.queue := by
      rw [hstate]
      simp
    have hcur2 : (writeMessage s t).state.lastNewWrite = some (s.msgID + 1) := by
      rw [hstate]
    have hig2 : (writeMessage s t).state.ignoreCutoffCutover = true := by
      rw [hstate]; exact hig
    have hmsg2 : (writeMessage s t).state.msgID = s.msgID + 1 := by
      rw [hstate]
    have hbd2 : ∀ id ∈ (writeMessage s t).state.queue, id ≤ (writeMessage s t).state.msgID := by
      intro id hid
      rw [hq2] at hid
      rw [hmsg2]
      rcases List.mem_cons.mp (by simpa using hid) with h2 | h2
      · omega
      · have := hbd _ h2
        omega
    have hrec := writeAll_block ts (writeMessage s t).state [] (s.msgID + 1) s.queue
      hig2 hq2 hcur2 (by simp) hbd2
    rw [hmsg2] at hrec
    simp only [writeAll]
    rw [hrec]
    simp [List.range']

/-- Witness for write_block_fifo: two writes on a fresh writer that ignores
cutoff/cutover produce queue [1, 2]. -/
theorem write_block_fifo_witness :
    (initialWriter 0 true).ignoreCutoffCutover = true
    ∧ (initialWriter 0 true).lastNewWrite = none
    ∧ (writeAll (initialWriter 0 true) [5, 6]).queue
        = List.range' ((initialWriter 0 true).msgID + 1) [5, 6].length
            ++ (initialWriter 0 true).queue :=
  ⟨rfl, rfl,
    write_block_fifo (initialWriter 0 true) [5, 6] rfl rfl (by decide)⟩

theorem scanBatchAux_acct (retryFn : Int → Int) (nowNanos : Int) (batchSize : Nat)
    (fullScan : Bool) (elems : List Nat) :
    ∀ (s : WriterState) (iterated : Nat),
      s.acksMap.Nodup → (∀ id ∈ s.acksMap, id ≤ s.msgID) →
      ((scanBatchAux retryFn nowNanos batchSize fullScan s elems iterated).state.acksMap.Nodup
      ∧ (∀ id ∈ (scanBatchAux retryFn nowNanos batchSize fullScan s elems iterated).state.acksMap,
          id ≤ s.msgID)
      ∧ (scanBatchAux retryFn nowNanos batchSize fullScan s elems iterated).state.msgID = s.msgID
      ∧ (scanBatchAux retryFn nowNanos batchSize fullScan s elems iterated).state.acksMap.length
          + (scanBatchAux retryFn nowNanos batchSize fullScan s elems iterated).ackTrueDelta
          + (scanBatchAux retryFn nowNanos batchSize fullScan s elems iterated).dropRemovedDelta
        = s.acksMap.length) := by
  induction elems with
  | nil =>
    intro s it hnd hbd
    simp only [scanBatchAux]
    exact ⟨hnd, hbd, trivial, by simp⟩
  | cons e rest ih =>
    intro s it hnd hbd
    by_cases hbr : batchSize < it + 1
    · simp only [scanBatchAux, if_pos hbr]
      exact ⟨hnd, hbd, trivial, by simp⟩
    · simp only [scanBatchAux, if_neg hbr]
      split
      -- closedDrain
      · by_cases he : e ∈ s.acksMap
        · obtain ⟨h1, h2, h3, h4⟩ :=
            ih (removeFromQueueWithLock (acksAck s e).1 e) (it + 1)
              (by simp [acksAck, he, removeFromQueueWithLock]
                  exact hnd.erase e)
              (by simp [acksAck, he, removeFromQueueWithLock]
                  intro id hid
                  exact hbd id (List.mem_of_mem_erase hid))
          have hmsg : (removeFromQueueWithLock (acksAck s e).1 e).msgID = s.msgID := by
            simp [acksAck, he, removeFromQueueWithLock]
          have hlen : (removeFromQueueWithLock (acksAck s e).1 e).acksMap.length
              = s.acksMap.length - 1 := by
            simp [acksAck, he, removeFromQueueWithLock, List.length_erase_of_mem he]
          have hpos : 0 < s.acksMap.length := List.length_pos_of_mem he
          have hres : (acksAck s e).2.1 = true := by simp [acksAck, he]
          rw [hlen] at h4
          rw [hmsg] at h2 h3
          refine ⟨h1, h2, h3, ?_⟩
          simp only [hres, if_true]
          omega
        · obtain ⟨h1, h2, h3, h4⟩ :=
            ih (removeFromQueueWithLock (acksAck s e).1 e) (it + 1)
              (by simp [acksAck, he, removeFromQueueWithLock]
                  exact hnd)
              (by simp [acksAck, he, removeFromQueueWithLock]
                  exact hbd)
          have hmsg : (removeFromQueueWithLock (acksAck s e).1 e).msgID = s.msgID := by
            simp [acksAck, he, removeFromQueueWithLock]
          have hlen : (removeFromQueueWithLock (acksAck s e).1 e).acksMap.length
              = s.acksMap.length := by
            simp [acksAck, he, removeFromQueueWithLock]
          have hres : (acksAck s e).2.1 = false := by simp [acksAck, he]
          rw [hlen] at h4
          rw [hmsg] at h2 h3
          refine ⟨h1, h2, h3, ?_⟩
          simp [hres]
          omega
      -- notReady
      · by_cases hfs : fullScan = false
        · rw [if_pos hfs]
          exact ⟨hnd, hbd, rfl, by simp⟩
        · rw [if_neg hfs]
          exact ih s (it + 1) hnd hbd
      -- ttlExpired
      · by_cases he : e ∈ s.acksMap
        · obtain ⟨h1, h2, h3, h4⟩ :=
            ih (removeFromQueueWithLock (acksAck s e).1 e) (it + 1)
              (by simp [acksAck, he, removeFromQueueWithLock]
                  exact hnd.erase e)
              (by simp [acksAck, he, removeFromQueueWithLock]
                  intro id hid
                  exact hbd id (List.mem_of_mem_erase hid))
          have hmsg : (removeFromQueueWithLock (acksAck s e).1 e).msgID = s.msgID := by
            simp [acksAck, he, removeFromQueueWithLock]
          have hlen : (removeFromQueueWithLock (acksAck s e).1 e).acksMap.length
              = s.acksMap.length - 1 := by
            simp [acksAck, he, removeFromQueueWithLock, List.length_erase_of_mem he]
          have hpos : 0 < s.acksMap.length := List.length_pos_of_mem he
          have hres : (acksAck s e).2.1 = true := by simp [acksAck, he]
          rw [hlen] at h4
          rw [hmsg] at h2 h3
          refine ⟨h1, h2, h3, ?_⟩
          simp only [hres, if_true]
          omega
        · obtain ⟨h1, h2, h3, h4⟩ :=
            ih (removeFromQueueWithLock (acksAck s e).1 e) (it + 1)
              (by simp [acksAck, he, removeFromQueueWithLock]
                  exact hnd)
              (by simp [acksAck, he, removeFromQueueWithLock]
                  exact hbd)
          have hmsg : (removeFromQueueWithLock (acksAck s e).1 e).msgID = s.msgID := by
            simp [acksAck, he, removeFromQueueWithLock]
          have hlen : (removeFromQueueWithLock (acksAck s e).1 e).acksMap.length
              = s.acksMap.length := by
            simp [acksAck, he, removeFromQueueWithLock]
          have hres : (acksAck s e).2.1 = false := by simp [acksAck, he]
          rw [hlen] at h4
          rw [hmsg] at h2 h3
          refine ⟨h1, h2, h3, ?_⟩
          simp [hres]
          omega
      -- ackedRemove
      · exact ih (removeFromQueueWithLock s e) (it + 1) hnd hbd
      -- dropped
      · by_cases hma : (heapGet s.heap e).acked = true
        · rw [if_pos hma]
          exact ih s (it + 1) hnd hbd
        · rw [if_neg hma]
          by_cases he : e ∈ s.acksMap
          · obtain ⟨h1, h2, h3, h4⟩ :=
              ih (removeFromQueueWithLock (acksRemove s e) e) (it + 1)
                (by simp [acksRemove, removeFromQueueWithLock]
                    exact hnd.erase e)
                (by simp [acksRemove, removeFromQueueWithLock]
                    intro id hid
                    exact hbd id (List.mem_of_mem_erase hid))
            have hlen : (removeFromQueueWithLock (acksRemove s e) e).acksMap.length
                = s.acksMap.length - 1 := by
              simp [acksRemove, removeFromQueueWithLock, List.length_erase_of_mem he]
            have hpos : 0 < s.acksMap.length := List.length_pos_of_mem he
            rw [hlen] at h4
            refine ⟨h1, h2, h3, ?_⟩
            simp [he]
            omega
          · obtain ⟨h1, h2, h3, h4⟩ :=
              ih (removeFromQueueWithLock (acksRemove s e) e) (it + 1)
                (by simp [acksRemove, removeFromQueueWithLock, List.erase_of_not_mem he]
                    exact hnd)
                (by simp [acksRemove, removeFromQueueWithLock, List.erase_of_not_mem he]
                    exact hbd)
            have hlen : (removeFromQueueWithLock (acksRemove s e) e).acksMap.length
                = s.acksMap.length := by
              simp [acksRemove, removeFromQueueWithLock, List.erase_of_not_mem he]
            rw [hlen] at h4
            refine ⟨h1, h2, h3, ?_⟩
            simp [he]
            omega
      -- ready
      · obtain ⟨h1, h2, h3, h4⟩ :=
          ih { s with heap := (heapSet s.heap e
                { incWriteTimes (heapGet s.heap e) with
                    retryAtNanos := retryFn ((incWriteTimes (heapGet s.heap e)).writeTimes : Int)
                      + nowNanos }) } (it + 1) hnd hbd
        refine ⟨h1, h2, h3, ?_⟩
        simpa using h4

theorem writeMessage_admitted_fields (s : WriterState) (t : Int)
    (hv : isValidWriteWithLock s t = true) :
    (writeMessage s t).admitted = true
    ∧ (writeMessage s t).state.msgID = s.msgID + 1
    ∧ (writeMessage s t).state.acksMap = acksAddKey s.acksMap (s.msgID + 1) := by
  simp only [writeMessage, hv]
  cases hl : s.lastNewWrite with
  | none => simp
  | some c => by_cases hc : c ∈ s.queue <;> simp [hc]

theorem acctInv_step (retryFn : Int → Int) (p : WriterState × Ghost) (op : WriterOp)
    (h : acctInv p.1 p.2) : acctInv (writerStep retryFn p op).1 (writerStep retryFn p op).2 := by
  obtain ⟨hnd, hbd, hsum⟩ := h
  cases op with
  | write nowNanos =>
    by_cases hv : isValidWriteWithLock p.1 nowNanos
    · obtain ⟨hadm, hmsg, hacks⟩ := writeMessage_admitted_fields p.1 nowNanos hv
      have hfresh : p.1.msgID + 1 ∉ p.1.acksMap := by
        intro hx
        have := hbd _ hx
        omega
      have hacks2 : (writeMessage p.1 nowNanos).state.acksMap
          = (p.1.msgID + 1) :: p.1.acksMap := by
        rw [hacks, acksAddKey, if_neg hfresh]
      refine ⟨?_, ?_, ?_⟩
      · simp only [writerStep, hacks2]
        exact List.nodup_cons.mpr ⟨hfresh, hnd⟩
      · intro id hid
        simp only [writerStep, hacks2] at hid
        simp only [writerStep, hmsg]
        rcases List.mem_cons.mp hid with h1 | h1
        · omega
        · have := hbd _ h1
          omega
      · simp only [writerStep, acksSize, hacks2, hadm, if_true]
        simp only [acksSize] at hsum
        simp only [List.length_cons]
        omega
    · have hvf : isValidWriteWithLock p.1 nowNanos = false := by simpa using hv
      have : writeMessage p.1 nowNanos = ⟨p.1, false, true, false⟩ := by
        simp [writeMessage, hvf]
      refine ⟨?_, ?_, ?_⟩ <;> simp only [writerStep, this] <;>
        first
          | exact hnd
          | exact hbd
          | simpa using hsum
  | ack id =>
    by_cases hm : id ∈ p.1.acksMap
    · have hres : (acksAck p.1 id).2.1 = true := by simp [acksAck, hm]
      have hmap : (acksAck p.1 id).1.acksMap = p.1.acksMap.erase id := by
        rw [acksAck_mem_map, if_pos hm]
      have hmsg : (acksAck p.1 id).1.msgID = p.1.msgID := by
        simp [acksAck, hm]
      have hpos : 0 < p.1.acksMap.length := List.length_pos_of_mem hm
      have hlen : (p.1.acksMap.erase id).length = p.1.acksMap.length - 1 :=
        List.length_erase_of_mem hm
      refine ⟨?_, ?_, ?_⟩
      · simp only [writerStep, hmap]
        exact hnd.erase id
      · intro x hx
        simp only [writerStep, hmap] at hx
        simp only [writerStep, hmsg]
        exact hbd x (List.mem_of_mem_erase hx)
      · simp only [writerStep, acksSize, hmap, hres, if_true, hlen]
        simp only [acksSize] at hsum
        omega
    · have : acksAck p.1 id = (p.1, false, 0) := acksAck_not_mem p.1 id hm
      refine ⟨?_, ?_, ?_⟩ <;> simp only [writerStep, this] <;>
        first
          | exact hnd
          | exact hbd
          | simpa using hsum
  | scanStart => exact ⟨hnd, hbd, hsum⟩
  | scanBatch nowNanos batchSize fullScan skip =>
    obtain ⟨h1, h2, h3, h4⟩ :=
      scanBatchAux_acct retryFn nowNanos batchSize fullScan (p.1.queue.drop skip) p.1 0 hnd hbd
    refine ⟨h1, ?_, ?_⟩
    · intro x hx
      simp only [writerStep, h3]
      exact h2 x hx
    · simp only [writerStep, acksSize]
      simp only [acksSize] at hsum h4
      omega
  | closeOp =>
    by_cases hc : p.1.isClosed <;>
      · refine ⟨?_, ?_, ?_⟩ <;> simp only [writerStep, closeWriter, hc] <;>
          first
            | simpa using hnd
            | simpa using hbd
            | simpa using hsum

theorem runWriter_acctInv (retryFn : Int → Int) (shard : Nat) (ignore : Bool)
    (ops : List WriterOp) :
    acctInv (runWriter retryFn shard ignore ops).1 (runWriter retryFn shard ignore ops).2 := by
  have hbase : acctInv (initialWriter shard ignore) ⟨0, 0, 0⟩ := by
    refine ⟨List.nodup_nil, ?_, rfl⟩
    intro id hid
    simp [initialWriter] at hid
  suffices h : ∀ (l : List WriterOp) (p : WriterState × Ghost), acctInv p.1 p.2 →
      acctInv (l.foldl (writerStep retryFn) p).1 (l.foldl (writerStep retryFn) p).2 by
    exact h ops _ hbase
  intro l
  induction l with
  | nil => intro p hp; exact hp
  | cons op rest ih =>
    intro p hp
    exact ih _ (acctInv_step retryFn p op hp)

/-- Claim C5: QueueSize returns the ack-table size, and along every sequence
of writer operations (writes, acks, scan starts, scan batches, closes) the
table size equals the number of admitted Write calls minus the successful ack
transitions (public Ack plus the scan loop's closed/TTL acks) minus the
entries removed by the scan loop's dropped-or-consumed handling. -/
theorem queue_size_accounting (retryFn : Int → Int) (shard : Nat) (ignore : Bool)
    (ops : List WriterOp) :
    queueSize (runWriter retryFn shard ignore ops).1
        = acksSize (runWriter retryFn shard ignore ops).1
    ∧ acksSize (runWriter retryFn shard ignore ops).1
        + (runWriter retryFn shard ignore ops).2.ackTrue
        + (runWriter retryFn shard ignore ops).2.dropRemoved
      = (runWriter retryFn shard ignore ops).2.admitted :=
  ⟨rfl, (runWriter_acctInv retryFn shard ignore ops).2.2⟩
